import Mathlib

/-!
Verification development for the shuffle/training-split registry of
`deeplabcut/generate_training_dataset/metadata.py`.

The Python module is shallowly embedded: frozen dataclasses become Lean
structures, raising `RuntimeError`/`ValueError` becomes returning
`Except MetaError`, Python `float` train fractions become exact rationals
(`ℚ`, which carries the same decidable linear order used by the code's
comparisons and sorts), Python `int` becomes `Int`, and filesystem reads
become explicit function arguments.  Every operation is translated from the
source; the only component modelled from the specification is the `Engine`
enumeration, whose defining file (`deeplabcut/core/engine.py`) is not part
of the excerpt.
-/

/-- Modelled from the spec: `deeplabcut.core.engine.Engine` is not part of the
source excerpt.  The spec describes it as a closed enumeration with exactly the
members `TF` and `PYTORCH`, "each with one or more serialization aliases",
where "the first alias is canonical for writing" and the primary aliases are
the strings "pytorch" and "tensorflow". -/
inductive Engine where
  | pytorch : Engine
  | tf : Engine
deriving DecidableEq, Repr

/-- Modelled from the spec: the serialization alias table of the engine
enumeration (tag to list of accepted alias strings, first alias canonical). -/
def Engine.aliases : Engine → List String
  | .pytorch => ["pytorch"]
  | .tf => ["tensorflow"]

/-- Iteration order of `for engine in Engine` (the closed enumeration). -/
def allEngines : List Engine := [Engine.pytorch, Engine.tf]

/-- Modelled from the spec: constructing `Engine(value)` from an alias string;
an unrecognized alias fails closed (`UnknownEngine` in the spec's taxonomy). -/
def Engine.fromAlias (a : String) : Option Engine :=
  allEngines.find? (fun e => a ∈ e.aliases)

/-- Error taxonomy.  The Python code raises `RuntimeError` / `ValueError` with
messages; the spec names the conditions, and this embedding uses one
constructor per condition.  `indexError` models the `IndexError` Python raises
when `cfg["TrainingFraction"][trainset_index]` is out of range. -/
inductive MetaError where
  | invalidSplit : MetaError
  | duplicateShuffle : MetaError
  | shuffleNotFound : MetaError
  | splitFileMissing : String → MetaError
  | unknownEngine : String → MetaError
  | noEngineFound : MetaError
  | notSorted : MetaError
  | indexError : MetaError
deriving DecidableEq, Repr

/-- Decidable equality for `Except` results, so that concrete runs of the
embedded operations can be checked by `decide`. -/
instance {ε α : Type} [DecidableEq ε] [DecidableEq α] :
    DecidableEq (Except ε α) := fun a b =>
  match a, b with
  | .ok x, .ok y =>
      if h : x = y then isTrue (by rw [h])
      else isFalse (fun hh => h (Except.ok.inj hh))
  | .error e, .error f =>
      if h : e = f then isTrue (by rw [h])
      else isFalse (fun hh => h (Except.error.inj hh))
  | .ok _, .error _ => isFalse (fun hh => Except.noConfusion hh)
  | .error _, .ok _ => isFalse (fun hh => Except.noConfusion hh)

/-- Adjacent-pairs check: `chainBool f l` is true when every consecutive pair
of `l` satisfies `f`.  This is the shape of both validation loops in the
source (`DataSplit.__post_init__` and
`TrainingDatasetMetadata.__post_init__`), which compare `zip`-ped adjacent
elements. -/
def chainBool {α : Type} (f : α → α → Bool) : List α → Bool
  | [] => true
  | [_] => true
  | a :: b :: rest => f a b && chainBool f (b :: rest)

/-- `DataSplit` (metadata.py lines 27-44): an immutable pair of index tuples. -/
structure DataSplit where
  train_indices : List Int
  test_indices : List Int
deriving DecidableEq, Repr

/-- The check `np.all(idx[:-1] < idx[1:])` performed by
`DataSplit.__post_init__` on each index tuple: all adjacent pairs strictly
increasing (vacuously true for tuples of length 0 or 1). -/
def strictlyAscending (l : List Int) : Prop :=
  chainBool (fun a b => decide (a < b)) l = true

instance : DecidablePred strictlyAscending :=
  fun l => inferInstanceAs (Decidable (chainBool _ l = true))

/-- Validated construction of a `DataSplit`: `DataSplit.__post_init__`
(lines 33-44) raises unless both index tuples are strictly ascending.  The
source checks `train_indices` then `test_indices` in a loop raising the same
error either way, which is equivalent to this conjunction.  Note that the
constructor only validates; it never reorders the given sequences. -/
def mkDataSplit (train test : List Int) : Except MetaError DataSplit :=
  if strictlyAscending train ∧ strictlyAscending test then
    .ok ⟨train, test⟩
  else
    .error .invalidSplit

/-- `ShuffleMetadata` (lines 47-54). -/
structure ShuffleMetadata where
  name : String
  train_fraction : ℚ
  index : Int
  engine : Engine
  split : Option DataSplit
deriving DecidableEq, Repr

/-- `tuple(sorted([int(idx) for idx in ...]))`: the indices are already
modelled as integers (the `int(...)` cast is the identity here), so this is
the sort alone.  Note the source does NOT deduplicate. -/
def sortInt (l : List Int) : List Int := List.insertionSort (· ≤ ·) l

/-- The on-disk split-source artifacts ("Documentation_data-..." pickle
files): a lookup from a record's `(train_fraction, index)` pair to the
`(train_idx, test_idx)` payload of the pickle, or `none` when
`get_data_and_metadata_filenames` points at a path that does not exist. -/
abbrev SplitFiles : Type := ℚ → Int → Option (List Int × List Int)

/-- The actionable part of the message of the error raised by `load_split`
when the metadata pickle for the shuffle is missing (lines 70-74). -/
def splitFileMissingMsg : String :=
  "If you deleted the shuffle, you also need to delete the shuffle from " ++
  "metadata.yaml or recreate the metadata.yaml file."

/-- `ShuffleMetadata.load_split` (lines 56-87): locate the metadata pickle for
this record's `(train_fraction, index)`, fail if absent, otherwise sort and
integer-cast the pickled train/test indices, build a `DataSplit` (which
validates strict ascent) and return a copy of the record with the split
populated. -/
def ShuffleMetadata.load_split (s : ShuffleMetadata) (files : SplitFiles) :
    Except MetaError ShuffleMetadata :=
  match files s.train_fraction s.index with
  | none => .error (.splitFileMissing splitFileMissingMsg)
  | some (train_idx, test_idx) => do
      let split ← mkDataSplit (sortInt train_idx) (sortInt test_idx)
      .ok { s with split := some split }

/-- Strict ordering on the `(train_fraction, index)` sort key, as compared by
`TrainingDatasetMetadata.__post_init__` (lines 136-138). -/
def keyLt (s t : ShuffleMetadata) : Prop :=
  s.train_fraction < t.train_fraction ∨
    (s.train_fraction = t.train_fraction ∧ s.index < t.index)

/-- The (non-strict) lexicographic key order used by
`sorted(shuffles, key=lambda s: (s.train_fraction, s.index))`. -/
def keyLe (s t : ShuffleMetadata) : Prop :=
  s.train_fraction < t.train_fraction ∨
    (s.train_fraction = t.train_fraction ∧ s.index ≤ t.index)

/-- Two records share the `(train_fraction, index)` key. -/
def sameKey (s t : ShuffleMetadata) : Prop :=
  s.train_fraction = t.train_fraction ∧ s.index = t.index

instance : DecidableRel keyLt := fun _ _ =>
  inferInstanceAs (Decidable (_ ∨ (_ ∧ _)))

instance : DecidableRel keyLe := fun _ _ =>
  inferInstanceAs (Decidable (_ ∨ (_ ∧ _)))

instance : DecidableRel sameKey := fun _ _ =>
  inferInstanceAs (Decidable (_ ∧ _))

instance : IsTrans ShuffleMetadata keyLt where
  trans a b c hab hbc := by
    rcases hab with h1 | ⟨he1, hi1⟩ <;> rcases hbc with h2 | ⟨he2, hi2⟩
    · exact Or.inl (lt_trans h1 h2)
    · exact Or.inl (he2 ▸ h1)
    · exact Or.inl (he1 ▸ h2)
    · exact Or.inr ⟨he1.trans he2, lt_trans hi1 hi2⟩

instance : IsTrans ShuffleMetadata keyLe where
  trans a b c hab hbc := by
    rcases hab with h1 | ⟨he1, hi1⟩ <;> rcases hbc with h2 | ⟨he2, hi2⟩
    · exact Or.inl (lt_trans h1 h2)
    · exact Or.inl (he2 ▸ h1)
    · exact Or.inl (he1 ▸ h2)
    · exact Or.inr ⟨he1.trans he2, le_trans hi1 hi2⟩

instance : IsTotal ShuffleMetadata keyLe where
  total a b := by
    rcases lt_trichotomy a.train_fraction b.train_fraction with h | h | h
    · exact Or.inl (Or.inl h)
    · rcases le_total a.index b.index with hi | hi
      · exact Or.inl (Or.inr ⟨h, hi⟩)
      · exact Or.inr (Or.inr ⟨h.symm, hi⟩)
    · exact Or.inr (Or.inl h)

instance : IsAntisymm ShuffleMetadata keyLt where
  antisymm a b hab hba := by
    rcases hab with h1 | ⟨he1, hi1⟩ <;> rcases hba with h2 | ⟨he2, hi2⟩
    · exact absurd (lt_trans h1 h2) (lt_irrefl _)
    · exact absurd (he2 ▸ h1) (lt_irrefl _)
    · exact absurd (he1 ▸ h2) (lt_irrefl _)
    · exact absurd (lt_trans hi1 hi2) (lt_irrefl _)

/-- The project configuration fields consumed by this module:
`cfg["TrainingFraction"]`, `cfg["Task"]`, `cfg["date"]`. -/
structure ProjectConfig where
  trainingFraction : List ℚ
  task : String
  date : String
deriving DecidableEq, Repr

/-- `TrainingDatasetMetadata` (lines 90-129): the registry.  The fixed
`file_header` comment lines only affect the serialized text, not the data
model, and are omitted. -/
structure TrainingDatasetMetadata where
  project_config : ProjectConfig
  shuffles : List ShuffleMetadata
deriving DecidableEq, Repr

/-- The adjacent-pairs check of `TrainingDatasetMetadata.__post_init__`
(lines 131-142): each consecutive pair of records strictly increases in the
`(train_fraction, index)` key. -/
def shufflesOrdered (l : List ShuffleMetadata) : Prop :=
  chainBool (fun s t => decide (keyLt s t)) l = true

instance : DecidablePred shufflesOrdered :=
  fun l => inferInstanceAs (Decidable (chainBool _ l = true))

/-- Validated construction of the registry: in Python every
`TrainingDatasetMetadata(...)` call runs `__post_init__`, which raises unless
the shuffles are sorted as checked by `shufflesOrdered`. -/
def mkMetadata (cfg : ProjectConfig) (shuffles : List ShuffleMetadata) :
    Except MetaError TrainingDatasetMetadata :=
  if shufflesOrdered shuffles then .ok ⟨cfg, shuffles⟩ else .error .notSorted

/-- `sorted(shuffles, key=lambda s: (s.train_fraction, s.index))`: a stable
sort by the lexicographic key. -/
def sortShuffles (l : List ShuffleMetadata) : List ShuffleMetadata :=
  List.insertionSort keyLe l

/-- `TrainingDatasetMetadata.add` (lines 144-184). -/
def TrainingDatasetMetadata.add (m : TrainingDatasetMetadata)
    (shuffle : ShuffleMetadata) (overwrite : Bool) :
    Except MetaError TrainingDatasetMetadata :=
  let existing_indices :=
    (m.shuffles.filter
      (fun s => decide (s.train_fraction = shuffle.train_fraction))).map
      (fun s => s.index)
  if shuffle.index ∈ existing_indices ∧ overwrite = false then
    .error .duplicateShuffle
  else
    let existing_shuffles := m.shuffles.filter
      (fun s => decide (s.index ≠ shuffle.index ∨
        s.train_fraction ≠ shuffle.train_fraction))
    mkMetadata m.project_config (sortShuffles (existing_shuffles ++ [shuffle]))

/-- `TrainingDatasetMetadata.get` (lines 186-209): resolve the trainset slot
against `cfg["TrainingFraction"]`, then return the first record matching that
fraction and the shuffle index. -/
def TrainingDatasetMetadata.get (m : TrainingDatasetMetadata)
    (trainset_index : Nat) (index : Int) : Except MetaError ShuffleMetadata :=
  match m.project_config.trainingFraction[trainset_index]? with
  | none => .error .indexError
  | some train_fraction =>
    match m.shuffles.find?
        (fun s => decide (s.train_fraction = train_fraction ∧
          s.index = index)) with
    | some s => .ok s
    | none => .error .shuffleNotFound

/-- One value of the YAML mapping written by `save` (lines 225-230): the
per-record document `{train_fraction, index, split: <interned id>,
engine: <primary alias string>}`. -/
structure SavedShuffle where
  train_fraction : ℚ
  index : Int
  split : Nat
  engine : String
deriving DecidableEq, Repr

/-- The serialized registry document: the `shuffles` mapping of the YAML
file, as an insertion-ordered dictionary from shuffle name to entry. -/
abbrev SavedDoc : Type := List (String × SavedShuffle)

/-- Python dictionary assignment `doc[k] = v`: if the key is present its
value is replaced in place (keeping the key's original position), otherwise
the pair is appended. -/
def dictInsert (doc : SavedDoc) (k : String) (v : SavedShuffle) : SavedDoc :=
  if doc.any (fun p => p.1 == k) then
    doc.map (fun p => if p.1 == k then (k, v) else p)
  else
    doc ++ [(k, v)]

/-- Lookup in the `data_splits: dict[DataSplit, int]` interning dictionary
(`data_splits.get(s.split)`, line 220). -/
def splitsFind : List (DataSplit × Nat) → DataSplit → Option Nat
  | [], _ => none
  | (k, v) :: rest, sp => if k = sp then some v else splitsFind rest sp

/-- The canonical alias written for a record's engine
(`s.engine.aliases[0]`, line 229). -/
def engineAlias (e : Engine) : String := e.aliases.headD ""

/-- The loop body of `TrainingDatasetMetadata.save` (lines 213-230): iterate
the records in registry order, lazily loading any absent split, interning
each distinct `DataSplit` to a 1-based id in first-encounter order
(`data_splits`), and writing each record's document entry under its name.
The `none` fallback in the inner match is unreachable because `load_split`
always populates the split. -/
def saveLoop (files : SplitFiles) :
    List ShuffleMetadata → List (DataSplit × Nat) → SavedDoc →
    Except MetaError SavedDoc
  | [], _, doc => .ok doc
  | s :: rest, data_splits, doc => do
      let s ← if s.split.isNone then s.load_split files else .ok s
      match s.split with
      | none => .error .invalidSplit
      | some sp =>
        let entry := fun idx =>
          SavedShuffle.mk s.train_fraction s.index idx (engineAlias s.engine)
        match splitsFind data_splits sp with
        | some idx =>
            saveLoop files rest data_splits (dictInsert doc s.name (entry idx))
        | none =>
            let idx := data_splits.length + 1
            saveLoop files rest ((sp, idx) :: data_splits)
              (dictInsert doc s.name (entry idx))

/-- `TrainingDatasetMetadata.save` (lines 211-234), modelled as producing the
`shuffles` mapping of the YAML document it writes.  The three fixed
`file_header` comment lines and the YAML text encoding are not part of the
data model.  The interning dictionary is discarded after the loop, exactly as
in the source (only the ids appear in the document). -/
def TrainingDatasetMetadata.save (m : TrainingDatasetMetadata)
    (files : SplitFiles) : Except MetaError SavedDoc :=
  saveLoop files m.shuffles [] []

/-- The loop body of `TrainingDatasetMetadata.load` (lines 256-268): rebuild
each record from its document entry with `split=None` (parsing the engine
alias, failing closed on an unknown alias), optionally loading the split
immediately. -/
def loadLoop (files : SplitFiles) (load_splits : Bool) :
    SavedDoc → Except MetaError (List ShuffleMetadata)
  | [] => .ok []
  | (shuffle_name, e) :: rest => do
      let engine ← match Engine.fromAlias e.engine with
        | some engine => Except.ok engine
        | none => Except.error (.unknownEngine e.engine)
      let shuffle := ShuffleMetadata.mk shuffle_name e.train_fraction e.index
        engine none
      let shuffle ← if load_splits then shuffle.load_split files
        else .ok shuffle
      let others ← loadLoop files load_splits rest
      .ok (shuffle :: others)

/-- `TrainingDatasetMetadata.load` (lines 236-271): parse the document,
rebuild the records, sort them by `(train_fraction, index)` and construct the
registry (which re-validates the ordering invariant). -/
def TrainingDatasetMetadata.load (cfg : ProjectConfig) (doc : SavedDoc)
    (load_splits : Bool) (files : SplitFiles) :
    Except MetaError TrainingDatasetMetadata := do
  let shuffles ← loadLoop files load_splits doc
  mkMetadata cfg (sortShuffles shuffles)

/-- One legacy per-shuffle documentation file as consumed by `create`
(lines 293-305): the shuffle index parsed from the file name
(`int(doc_path.stem.split("shuffle")[-1])`) together with the
`(train_idx, test_idx, train_frac)` components of the pickled 4-tuple (the
first, opaque component is ignored by the source). -/
structure LegacyDoc where
  index : Int
  train_idx : List Int
  test_idx : List Int
  train_frac : ℚ
deriving DecidableEq, Repr

/-- Python `int(q)` on a number: truncation toward zero, which on `ℚ` is
T-division of the numerator by the denominator. -/
def intTrunc (q : ℚ) : Int := q.num / (q.den : Int)

/-- The shuffle name synthesized by `create` (line 317):
`f"{prefix}-trainset{int(100 * train_frac)}shuffle{index}"`. -/
def legacyShuffleName (prefixStr : String) (frac : ℚ) (index : Int) : String :=
  prefixStr ++ "-trainset" ++ toString (intTrunc (100 * frac)) ++ "shuffle" ++
    toString index

/-- The loop body of `TrainingDatasetMetadata.create` (lines 302-323): for
each legacy file, sort and integer-cast the pickled indices, build a
`DataSplit` (validated) and a record tagged `Engine.TF`.  The source also
threads an `existing_splits` interning dictionary through this loop, but the
ids it assigns are never stored in the returned records, so that dictionary
does not affect the returned value and is omitted here. -/
def createRecords (prefixStr : String) :
    List LegacyDoc → Except MetaError (List ShuffleMetadata)
  | [] => .ok []
  | d :: rest => do
      let train_idx := sortInt d.train_idx
      let test_idx := sortInt d.test_idx
      let split ← mkDataSplit train_idx test_idx
      let others ← createRecords prefixStr rest
      .ok (ShuffleMetadata.mk (legacyShuffleName prefixStr d.train_frac d.index)
        d.train_frac d.index Engine.tf (some split) :: others)

/-- `TrainingDatasetMetadata.create` (lines 273-329): the legacy migrator.
The directory scan and file-name regex are modelled as the given list of
matched legacy documents (with their parsed shuffle indices); the records are
built per document, sorted by `(train_fraction, index)` and validated by
registry construction. -/
def TrainingDatasetMetadata.create (cfg : ProjectConfig)
    (docs : List LegacyDoc) : Except MetaError TrainingDatasetMetadata := do
  let shuffles ← createRecords (cfg.task ++ cfg.date) docs
  mkMetadata cfg (sortShuffles shuffles)

/-- `find_engines_from_model_folders` (lines 441-477): the set of engines
whose expected model folder exists.  The path construction via
`get_model_folder` plus the `.exists()` probe is abstracted as the predicate
`folderExists` on engines (for the fixed project, trainset slot, shuffle and
model-folder namespace under inspection). -/
def find_engines_from_model_folders (folderExists : Engine → Bool) :
    List Engine :=
  allEngines.filter folderExists

/-- `get_shuffle_engine` (lines 385-438), from the point where the registry
has been loaded (the self-healing bootstrap of lines 405-407, which migrates
and persists a registry when the metadata file is absent, is filesystem
bootstrapping prior to the lookup and is not modelled; the claims quantify
over the loaded registry).  `engines.pop()` on a Python set with one element
deterministically returns that element; on a larger set the choice is
unspecified, which is modelled by the adversarial parameter `pick`. -/
def get_shuffle_engine (m : TrainingDatasetMetadata) (trainingsetindex : Nat)
    (shuffle : Int) (modelPrefixStr : String) (folderExists : Engine → Bool)
    (pick : List Engine → Engine) : Except MetaError Engine := do
  let shuffle_metadata ← m.get trainingsetindex shuffle
  if modelPrefixStr ≠ "" then
    match find_engines_from_model_folders folderExists with
    | [] => .error .noEngineFound
    | [e] => .ok e
    | engines =>
        if shuffle_metadata.engine ∈ engines then .ok shuffle_metadata.engine
        else .ok (pick engines)
  else
    .ok shuffle_metadata.engine

/-- A sequence of `add` calls (each with its own overwrite flag), used to
state the invariant-preservation claim. -/
def addAll (m : TrainingDatasetMetadata) :
    List (ShuffleMetadata × Bool) → Except MetaError TrainingDatasetMetadata
  | [] => .ok m
  | (s, ov) :: rest => do
      let m₂ ← m.add s ov
      addAll m₂ rest

/-- The pure id-assignment performed by the interning dictionary of `save`:
given the records' splits in registry order and the dictionary state, the
successive interned ids (`data_splits.get` / fresh `len(data_splits) + 1`). -/
def internIds : List DataSplit → List (DataSplit × Nat) → List Nat
  | [], _ => []
  | sp :: rest, seen =>
      match splitsFind seen sp with
      | some idx => idx :: internIds rest seen
      | none => (seen.length + 1) :: internIds rest ((sp, seen.length + 1) :: seen)

/-- The document entry written for a record given its interned split id. -/
def mkEntry (s : ShuffleMetadata) (idx : Nat) : String × SavedShuffle :=
  (s.name, SavedShuffle.mk s.train_fraction s.index idx (engineAlias s.engine))

/-- The splits of a record list (all assumed loaded; `default` is never
reached under that assumption). -/
def splitsOf (l : List ShuffleMetadata) : List DataSplit :=
  l.map (fun s => s.split.getD ⟨[], []⟩)

/-- A record with its split dropped, as `load` rebuilds records
(`split=None`). -/
def stripSplit (s : ShuffleMetadata) : ShuffleMetadata :=
  { s with split := none }

theorem chainBool_iff_chain' {α : Type} (f : α → α → Bool) :
    ∀ l : List α, chainBool f l = true ↔ List.Chain' (fun a b => f a b = true) l
  | [] => by simp [chainBool]
  | [a] => by simp [chainBool]
  | a :: b :: rest => by
      rw [chainBool, Bool.and_eq_true, List.chain'_cons,
        chainBool_iff_chain' f (b :: rest)]

theorem strictAsc_iff (l : List Int) :
    strictlyAscending l ↔ List.Chain' (· < ·) l := by
  rw [strictlyAscending, chainBool_iff_chain']
  constructor
  · exact fun h => h.imp (fun _ _ hab => of_decide_eq_true hab)
  · exact fun h => h.imp (fun _ _ hab => decide_eq_true hab)

theorem ordered_iff_pairwise (l : List ShuffleMetadata) :
    shufflesOrdered l ↔ l.Pairwise keyLt := by
  rw [shufflesOrdered, chainBool_iff_chain']
  have h1 : List.Chain' (fun s t => decide (keyLt s t) = true) l ↔
      List.Chain' keyLt l := by
    constructor
    · exact fun h => h.imp (fun _ _ hab => of_decide_eq_true hab)
    · exact fun h => h.imp (fun _ _ hab => decide_eq_true hab)
  rw [h1, List.chain'_iff_pairwise]

theorem keyLt_not_sameKey {s t : ShuffleMetadata} (h : keyLt s t) :
    ¬ sameKey s t := by
  rintro ⟨hf, hi⟩
  rcases h with h | ⟨-, h⟩
  · exact absurd (hf ▸ h) (lt_irrefl _)
  · exact absurd (hi ▸ h) (lt_irrefl _)

theorem keyLt_of_keyLe_not_sameKey {s t : ShuffleMetadata} (hle : keyLe s t)
    (hne : ¬ sameKey s t) : keyLt s t := by
  rcases hle with h | ⟨hf, hi⟩
  · exact Or.inl h
  · rcases lt_or_eq_of_le hi with h | h
    · exact Or.inr ⟨hf, h⟩
    · exact absurd ⟨hf, h⟩ hne

theorem pairwise_combine {α : Type} {R S T : α → α → Prop} {l : List α}
    (hR : l.Pairwise R) (hS : l.Pairwise S)
    (h : ∀ a b, R a b → S a b → T a b) : l.Pairwise T := by
  induction l with
  | nil => exact List.Pairwise.nil
  | cons a t ih =>
      rcases List.pairwise_cons.mp hR with ⟨hRa, hRt⟩
      rcases List.pairwise_cons.mp hS with ⟨hSa, hSt⟩
      exact List.pairwise_cons.mpr
        ⟨fun b hb => h a b (hRa b hb) (hSa b hb), ih hRt hSt⟩

theorem notSameKey_symm {s t : ShuffleMetadata} (h : ¬ sameKey s t) :
    ¬ sameKey t s := fun ⟨hf, hi⟩ => h ⟨hf.symm, hi.symm⟩

theorem sortShuffles_perm (l : List ShuffleMetadata) :
    List.Perm (sortShuffles l) l := List.perm_insertionSort keyLe l

theorem sortShuffles_sorted (l : List ShuffleMetadata) :
    (sortShuffles l).Pairwise keyLe := List.sorted_insertionSort keyLe l

theorem sortShuffles_valid {l : List ShuffleMetadata}
    (h : l.Pairwise (fun s t => ¬ sameKey s t)) :
    shufflesOrdered (sortShuffles l) := by
  rw [ordered_iff_pairwise]
  have hne : (sortShuffles l).Pairwise (fun s t => ¬ sameKey s t) :=
    ((sortShuffles_perm l).pairwise_iff
      (fun h' => notSameKey_symm h')).mpr h
  exact pairwise_combine (sortShuffles_sorted l) hne
    (fun _ _ hle hns => keyLt_of_keyLe_not_sameKey hle hns)

theorem mkMetadata_ok {cfg : ProjectConfig} {l : List ShuffleMetadata}
    {m : TrainingDatasetMetadata} (h : mkMetadata cfg l = .ok m) :
    m = ⟨cfg, l⟩ ∧ shufflesOrdered l := by
  by_cases hl : shufflesOrdered l
  · rw [mkMetadata, if_pos hl] at h
    exact ⟨(Except.ok.inj h).symm, hl⟩
  · rw [mkMetadata, if_neg hl] at h
    exact absurd h (fun hh => Except.noConfusion hh)

theorem mkMetadata_ok_of_valid {cfg : ProjectConfig} {l : List ShuffleMetadata}
    (h : shufflesOrdered l) : mkMetadata cfg l = .ok ⟨cfg, l⟩ := by
  rw [mkMetadata, if_pos h]

theorem add_guard_iff (m : TrainingDatasetMetadata) (r : ShuffleMetadata) :
    r.index ∈ (m.shuffles.filter
        (fun s => decide (s.train_fraction = r.train_fraction))).map
        (fun s => s.index) ↔
      ∃ s ∈ m.shuffles, sameKey s r := by
  simp only [List.mem_map, List.mem_filter, decide_eq_true_eq, sameKey]
  constructor
  · rintro ⟨s, ⟨hs, hf⟩, hi⟩
    exact ⟨s, hs, hf, hi⟩
  · rintro ⟨s, hs, hf, hi⟩
    exact ⟨s, ⟨hs, hf⟩, hi⟩

theorem add_eq_error {m : TrainingDatasetMetadata} {r : ShuffleMetadata}
    (hd : ∃ s ∈ m.shuffles, sameKey s r) :
    m.add r false = .error .duplicateShuffle := by
  rw [TrainingDatasetMetadata.add, if_pos ⟨(add_guard_iff m r).mpr hd, rfl⟩]

theorem add_eq_sort {m : TrainingDatasetMetadata} {r : ShuffleMetadata}
    {ov : Bool}
    (h : ¬ (∃ s ∈ m.shuffles, sameKey s r) ∨ ov = true) :
    m.add r ov = mkMetadata m.project_config
      (sortShuffles ((m.shuffles.filter
        (fun s => decide (s.index ≠ r.index ∨
          s.train_fraction ≠ r.train_fraction))) ++ [r])) := by
  rw [TrainingDatasetMetadata.add, if_neg]
  rintro ⟨hmem, hov⟩
  rcases h with h | h
  · exact h ((add_guard_iff m r).mp hmem)
  · rw [h] at hov
    exact Bool.noConfusion hov

theorem filtered_not_sameKey {m : TrainingDatasetMetadata}
    {r s : ShuffleMetadata}
    (hs : s ∈ m.shuffles.filter
      (fun s => decide (s.index ≠ r.index ∨
        s.train_fraction ≠ r.train_fraction))) :
    ¬ sameKey s r := by
  rcases List.mem_filter.mp hs with ⟨-, hcond⟩
  rcases of_decide_eq_true hcond with h | h
  · exact fun hk => h hk.2
  · exact fun hk => h hk.1

theorem add_append_not_sameKey {m : TrainingDatasetMetadata}
    {r : ShuffleMetadata} (hvalid : shufflesOrdered m.shuffles) :
    ((m.shuffles.filter
      (fun s => decide (s.index ≠ r.index ∨
        s.train_fraction ≠ r.train_fraction))) ++ [r]).Pairwise
      (fun s t => ¬ sameKey s t) := by
  have hm : m.shuffles.Pairwise (fun s t => ¬ sameKey s t) :=
    ((ordered_iff_pairwise m.shuffles).mp hvalid).imp
      (fun h => keyLt_not_sameKey h)
  refine List.pairwise_append.mpr ⟨hm.filter _, ?_, ?_⟩
  · exact List.pairwise_singleton _ _
  · intro a ha b hb
    rw [List.mem_singleton] at hb
    subst hb
    exact filtered_not_sameKey ha

theorem add_ok_of_fresh {m : TrainingDatasetMetadata} {r : ShuffleMetadata}
    {ov : Bool} (hvalid : shufflesOrdered m.shuffles)
    (h : ¬ (∃ s ∈ m.shuffles, sameKey s r) ∨ ov = true) :
    m.add r ov = .ok ⟨m.project_config,
      sortShuffles ((m.shuffles.filter
        (fun s => decide (s.index ≠ r.index ∨
          s.train_fraction ≠ r.train_fraction))) ++ [r])⟩ := by
  rw [add_eq_sort h, mkMetadata_ok_of_valid]
  exact sortShuffles_valid (add_append_not_sameKey hvalid)

theorem add_ok_char {m : TrainingDatasetMetadata} {r : ShuffleMetadata}
    {ov : Bool} {m₂ : TrainingDatasetMetadata} (h : m.add r ov = .ok m₂) :
    m₂.project_config = m.project_config ∧
    m₂.shuffles = sortShuffles ((m.shuffles.filter
      (fun s => decide (s.index ≠ r.index ∨
        s.train_fraction ≠ r.train_fraction))) ++ [r]) ∧
    shufflesOrdered m₂.shuffles := by
  rw [TrainingDatasetMetadata.add] at h
  by_cases hg : r.index ∈ (m.shuffles.filter
      (fun s => decide (s.train_fraction = r.train_fraction))).map
      (fun s => s.index) ∧ ov = false
  · rw [if_pos hg] at h
    exact absurd h (fun hh => Except.noConfusion hh)
  · rw [if_neg hg] at h
    rcases mkMetadata_ok h with ⟨hm, hord⟩
    subst hm
    exact ⟨rfl, rfl, hord⟩

theorem add_result_mem {m : TrainingDatasetMetadata} {r : ShuffleMetadata}
    {ov : Bool} {m₂ : TrainingDatasetMetadata} (h : m.add r ov = .ok m₂) :
    r ∈ m₂.shuffles := by
  rcases add_ok_char h with ⟨-, hsh, -⟩
  rw [hsh]
  exact (sortShuffles_perm _).mem_iff.mpr (List.mem_append_right _ (by simp))

theorem add_result_filter {m : TrainingDatasetMetadata} {r : ShuffleMetadata}
    {ov : Bool} {m₂ : TrainingDatasetMetadata} (h : m.add r ov = .ok m₂) :
    m₂.shuffles.filter (fun s => decide (sameKey s r)) = [r] := by
  rcases add_ok_char h with ⟨-, hsh, -⟩
  have hperm : List.Perm
      (m₂.shuffles.filter (fun s => decide (sameKey s r)))
      ((((m.shuffles.filter
        (fun s => decide (s.index ≠ r.index ∨
          s.train_fraction ≠ r.train_fraction))) ++ [r]).filter
        (fun s => decide (sameKey s r)))) := by
    rw [hsh]
    exact (sortShuffles_perm _).filter _
  rw [List.filter_append] at hperm
  have h1 : (m.shuffles.filter
      (fun s => decide (s.index ≠ r.index ∨
        s.train_fraction ≠ r.train_fraction))).filter
      (fun s => decide (sameKey s r)) = [] := by
    rw [List.filter_eq_nil_iff]
    intro a ha
    rw [decide_eq_true_eq]
    exact filtered_not_sameKey ha
  have h2 : ([r].filter (fun s => decide (sameKey s r))) = [r] := by
    have : decide (sameKey r r) = true := decide_eq_true ⟨rfl, rfl⟩
    simp [List.filter_singleton, this]
  rw [h1, h2, List.nil_append] at hperm
  exact List.perm_singleton.mp hperm

theorem except_bind_ok {ε α β : Type} {x : Except ε α} {f : α → Except ε β}
    {b : β} (h : (x >>= f) = .ok b) : ∃ a, x = .ok a ∧ f a = .ok b := by
  cases x with
  | error e =>
      rw [show ((Except.error e : Except ε α) >>= f) =
        Except.error e from rfl] at h
      exact absurd h (fun hh => Except.noConfusion hh)
  | ok a =>
      rw [show ((Except.ok a : Except ε α) >>= f) = f a from rfl] at h
      exact ⟨a, rfl, h⟩

theorem addAll_valid :
    ∀ (ops : List (ShuffleMetadata × Bool)) (m m₂ : TrainingDatasetMetadata),
      shufflesOrdered m.shuffles → addAll m ops = .ok m₂ →
      shufflesOrdered m₂.shuffles
  | [], m, m₂, hv, h => by
      rw [addAll] at h
      rw [← Except.ok.inj h]
      exact hv
  | (s, ov) :: rest, m, m₂, hv, h => by
      rw [addAll] at h
      rcases except_bind_ok h with ⟨m', hadd, hrest⟩
      exact addAll_valid rest m' m₂ (add_ok_char hadd).2.2 hrest

theorem load_valid {cfg : ProjectConfig} {doc : SavedDoc} {ls : Bool}
    {files : SplitFiles} {m₂ : TrainingDatasetMetadata}
    (h : TrainingDatasetMetadata.load cfg doc ls files = .ok m₂) :
    shufflesOrdered m₂.shuffles := by
  rw [TrainingDatasetMetadata.load] at h
  rcases except_bind_ok h with ⟨l, -, hmk⟩
  rcases mkMetadata_ok hmk with ⟨hm, hord⟩
  rw [hm]
  exact hord

theorem create_valid {cfg : ProjectConfig} {docs : List LegacyDoc}
    {m₂ : TrainingDatasetMetadata}
    (h : TrainingDatasetMetadata.create cfg docs = .ok m₂) :
    shufflesOrdered m₂.shuffles := by
  rw [TrainingDatasetMetadata.create] at h
  rcases except_bind_ok h with ⟨l, -, hmk⟩
  rcases mkMetadata_ok hmk with ⟨hm, hord⟩
  rw [hm]
  exact hord

theorem valid_sorted_unique {l : List ShuffleMetadata}
    (h : shufflesOrdered l) :
    l.Pairwise keyLt ∧ l.Pairwise (fun s t => ¬ sameKey s t) := by
  have hp := (ordered_iff_pairwise l).mp h
  exact ⟨hp, hp.imp (fun hab => keyLt_not_sameKey hab)⟩

/-- C1: for every registry and record, `add(record, overwrite=false)` fails
with `DuplicateShuffle` when the registry already contains a record with the
same `(train_fraction, index)` pair, and `add(record, overwrite=true)` on
such a registry succeeds and returns a registry in which the prior record
with that pair is gone, replaced by the new record (the records matching the
key are exactly the new record); when no record with that pair exists, `add`
succeeds regardless of the overwrite flag and the new registry contains the
record, re-sorted by `(train_fraction, index)`. -/
theorem claim_C1 (m : TrainingDatasetMetadata) (r : ShuffleMetadata)
    (hvalid : shufflesOrdered m.shuffles) :
    ((∃ s ∈ m.shuffles, sameKey s r) →
      m.add r false = .error .duplicateShuffle ∧
      ∃ m₂, m.add r true = .ok m₂ ∧
        m₂.shuffles.filter (fun s => decide (sameKey s r)) = [r] ∧
        shufflesOrdered m₂.shuffles) ∧
    ((¬ ∃ s ∈ m.shuffles, sameKey s r) → ∀ ov : Bool,
      ∃ m₂, m.add r ov = .ok m₂ ∧ r ∈ m₂.shuffles ∧
        shufflesOrdered m₂.shuffles) := by
  constructor
  · intro hd
    refine ⟨add_eq_error hd, ?_⟩
    have hok := @add_ok_of_fresh m r true hvalid (Or.inr rfl)
    exact ⟨_, hok, add_result_filter hok, (add_ok_char hok).2.2⟩
  · intro hd ov
    have hok := @add_ok_of_fresh m r ov hvalid (Or.inl hd)
    exact ⟨_, hok, add_result_mem hok, (add_ok_char hok).2.2⟩

/-- Witness for C1 at a concrete registry: duplicate key rejected without
overwrite, replaced with overwrite, fresh key added. -/
theorem claim_C1_witness :
    shufflesOrdered
      (TrainingDatasetMetadata.mk ⟨[1, 2], "T", "D"⟩
        [⟨"a", 1, 0, Engine.tf, none⟩, ⟨"b", 1, 1, Engine.tf, none⟩]).shuffles ∧
    (∃ s ∈ (TrainingDatasetMetadata.mk ⟨[1, 2], "T", "D"⟩
        [⟨"a", 1, 0, Engine.tf, none⟩, ⟨"b", 1, 1, Engine.tf, none⟩]).shuffles,
      sameKey s ⟨"x", 1, 1, Engine.pytorch, none⟩) ∧
    (TrainingDatasetMetadata.mk ⟨[1, 2], "T", "D"⟩
        [⟨"a", 1, 0, Engine.tf, none⟩, ⟨"b", 1, 1, Engine.tf, none⟩]).add
      ⟨"x", 1, 1, Engine.pytorch, none⟩ false =
      .error .duplicateShuffle :=
  ⟨by decide, by decide,
    ((claim_C1 _ ⟨"x", 1, 1, Engine.pytorch, none⟩ (by decide)).1
      (by decide)).1⟩

/-- C2: every operation that returns a registry (`add` — iterated over any
sequence of calls starting from a valid registry — `load`, `create`, and
registry construction itself) yields a record sequence strictly sorted by the
`(train_fraction, index)` key, with no two records sharing that key. -/
theorem claim_C2 :
    (∀ (m : TrainingDatasetMetadata) (ops : List (ShuffleMetadata × Bool))
      (m₂ : TrainingDatasetMetadata),
      shufflesOrdered m.shuffles → addAll m ops = .ok m₂ →
      m₂.shuffles.Pairwise keyLt ∧
      m₂.shuffles.Pairwise (fun s t => ¬ sameKey s t)) ∧
    (∀ (cfg : ProjectConfig) (doc : SavedDoc) (ls : Bool)
      (files : SplitFiles) (m₂ : TrainingDatasetMetadata),
      TrainingDatasetMetadata.load cfg doc ls files = .ok m₂ →
      m₂.shuffles.Pairwise keyLt ∧
      m₂.shuffles.Pairwise (fun s t => ¬ sameKey s t)) ∧
    (∀ (cfg : ProjectConfig) (docs : List LegacyDoc)
      (m₂ : TrainingDatasetMetadata),
      TrainingDatasetMetadata.create cfg docs = .ok m₂ →
      m₂.shuffles.Pairwise keyLt ∧
      m₂.shuffles.Pairwise (fun s t => ¬ sameKey s t)) ∧
    (∀ (cfg : ProjectConfig) (l : List ShuffleMetadata)
      (m₂ : TrainingDatasetMetadata),
      mkMetadata cfg l = .ok m₂ →
      m₂.shuffles.Pairwise keyLt ∧
      m₂.shuffles.Pairwise (fun s t => ¬ sameKey s t)) := by
  refine ⟨?_, ?_, ?_, ?_⟩
  · intro m ops m₂ hv h
    exact valid_sorted_unique (addAll_valid ops m m₂ hv h)
  · intro cfg doc ls files m₂ h
    exact valid_sorted_unique (load_valid h)
  · intro cfg docs m₂ h
    exact valid_sorted_unique (create_valid h)
  · intro cfg l m₂ h
    rcases mkMetadata_ok h with ⟨hm, hord⟩
    rw [hm]
    exact valid_sorted_unique hord

/-- Witness for C2: a two-step `add` sequence from a concrete valid registry
keeps the records strictly sorted with unique keys. -/
theorem claim_C2_witness :
    shufflesOrdered
      (TrainingDatasetMetadata.mk ⟨[1], "T", "D"⟩
        [⟨"a", 1, 0, Engine.tf, none⟩]).shuffles ∧
    addAll (TrainingDatasetMetadata.mk ⟨[1], "T", "D"⟩
        [⟨"a", 1, 0, Engine.tf, none⟩])
      [(⟨"b", 1, 2, Engine.pytorch, none⟩, false),
       (⟨"c", 1, 1, Engine.tf, none⟩, false)] =
      .ok (TrainingDatasetMetadata.mk ⟨[1], "T", "D"⟩
        [⟨"a", 1, 0, Engine.tf, none⟩, ⟨"c", 1, 1, Engine.tf, none⟩,
         ⟨"b", 1, 2, Engine.pytorch, none⟩]) ∧
    (TrainingDatasetMetadata.mk ⟨[1], "T", "D"⟩
        [⟨"a", 1, 0, Engine.tf, none⟩, ⟨"c", 1, 1, Engine.tf, none⟩,
         ⟨"b", 1, 2, Engine.pytorch, none⟩]).shuffles.Pairwise keyLt ∧
    (TrainingDatasetMetadata.mk ⟨[1], "T", "D"⟩
        [⟨"a", 1, 0, Engine.tf, none⟩, ⟨"c", 1, 1, Engine.tf, none⟩,
         ⟨"b", 1, 2, Engine.pytorch, none⟩]).shuffles.Pairwise
      (fun s t => ¬ sameKey s t) :=
  ⟨by decide, by decide,
    ((claim_C2.1 (TrainingDatasetMetadata.mk ⟨[1], "T", "D"⟩
        [⟨"a", 1, 0, Engine.tf, none⟩])
      [(⟨"b", 1, 2, Engine.pytorch, none⟩, false),
       (⟨"c", 1, 1, Engine.tf, none⟩, false)] _ (by decide) (by decide)).1),
    ((claim_C2.1 (TrainingDatasetMetadata.mk ⟨[1], "T", "D"⟩
        [⟨"a", 1, 0, Engine.tf, none⟩])
      [(⟨"b", 1, 2, Engine.pytorch, none⟩, false),
       (⟨"c", 1, 1, Engine.tf, none⟩, false)] _ (by decide) (by decide)).2)⟩

/-- C3: for every pair of integer sequences, `DataSplit` construction fails
with `InvalidSplit` if and only if at least one of the two sequences is not
strictly ascending; construction only validates and never reorders the given
sequences. -/
theorem claim_C3 (train test : List Int) :
    (mkDataSplit train test = .error .invalidSplit ↔
      ¬ strictlyAscending train ∨ ¬ strictlyAscending test) ∧
    (∀ d, mkDataSplit train test = .ok d →
      d.train_indices = train ∧ d.test_indices = test) := by
  by_cases h : strictlyAscending train ∧ strictlyAscending test
  · rw [mkDataSplit, if_pos h]
    constructor
    · constructor
      · intro hh
        exact absurd hh (fun hc => Except.noConfusion hc)
      · intro hh
        rcases hh with hh | hh
        · exact absurd h.1 hh
        · exact absurd h.2 hh
    · intro d hd
      rw [← Except.ok.inj hd]
      exact ⟨rfl, rfl⟩
  · rw [mkDataSplit, if_neg h]
    constructor
    · constructor
      · intro _
        exact not_and_or.mp h
      · intro _
        rfl
    · intro d hd
      exact absurd hd (fun hc => Except.noConfusion hc)

/-- Witness for C3: a sorted pair is accepted unchanged; an unsorted train
sequence is rejected with `InvalidSplit`. -/
theorem claim_C3_witness :
    (mkDataSplit [3, 1] [0] = .error .invalidSplit ↔
      ¬ strictlyAscending [3, 1] ∨ ¬ strictlyAscending [0]) ∧
    (DataSplit.mk [1, 2] [0]).train_indices = [1, 2] ∧
    (DataSplit.mk [1, 2] [0]).test_indices = [0] :=
  ⟨(claim_C3 [3, 1] [0]).1,
    (claim_C3 [1, 2] [0]).2 ⟨[1, 2], [0]⟩ (by decide)⟩

/-- C10: constructing a `DataSplit` with empty and/or singleton index
sequences succeeds — the strictly-ascending validation passes vacuously for
sequences of length zero or one. -/
theorem claim_C10 :
    mkDataSplit [] [] = .ok ⟨[], []⟩ ∧
    mkDataSplit [] [0] = .ok ⟨[], [0]⟩ ∧
    mkDataSplit [7] [] = .ok ⟨[7], []⟩ ∧
    mkDataSplit [2] [5] = .ok ⟨[2], [5]⟩ := by
  decide

/-- C4 counterexample: the claim says `load_split` deduplicates the
deserialized indices before building the split.  The source only sorts
(`tuple(sorted([int(idx) for idx in train_idx]))`, lines 84-85): on a pickle
whose train indices contain a duplicate, the sorted list is not strictly
ascending, so `DataSplit.__post_init__` raises instead of the claimed success
with a deduplicated split. -/
theorem claim_C4_counterexample :
    ShuffleMetadata.load_split ⟨"s0", 1, 0, Engine.tf, none⟩
      (fun _ _ => some ([1, 1], [0])) = .error .invalidSplit := by
  decide

/-- C4 (amended): `load_split` fails with `SplitFileMissing` (whose message
instructs that deleting a shuffle's files also requires removing its registry
entry) when the on-disk artifact for the record's `(train_fraction, index)`
pair is absent; otherwise it sorts and integer-casts the deserialized
train/test index collections WITHOUT deduplicating, builds a `Split` from
them — which fails with `InvalidSplit` when either sorted collection still
contains duplicates — and on success returns a new record equal to the
original in name, train_fraction, index, and engine, with only the split now
populated. -/
theorem claim_C4_amended (s : ShuffleMetadata) (files : SplitFiles) :
    (files s.train_fraction s.index = none →
      s.load_split files = .error (.splitFileMissing splitFileMissingMsg)) ∧
    splitFileMissingMsg =
      "If you deleted the shuffle, you also need to delete the shuffle " ++
      "from metadata.yaml or recreate the metadata.yaml file." ∧
    (∀ train test, files s.train_fraction s.index = some (train, test) →
      strictlyAscending (sortInt train) → strictlyAscending (sortInt test) →
      s.load_split files = .ok ⟨s.name, s.train_fraction, s.index, s.engine,
        some ⟨sortInt train, sortInt test⟩⟩) ∧
    (∀ train test, files s.train_fraction s.index = some (train, test) →
      ¬ (strictlyAscending (sortInt train) ∧
        strictlyAscending (sortInt test)) →
      s.load_split files = .error .invalidSplit) := by
  refine ⟨?_, by decide, ?_, ?_⟩
  · intro hf
    rw [ShuffleMetadata.load_split, hf]
  · intro train test hf h1 h2
    rw [ShuffleMetadata.load_split, hf]
    show (mkDataSplit (sortInt train) (sortInt test) >>= _) = _
    rw [mkDataSplit, if_pos ⟨h1, h2⟩]
    rfl
  · intro train test hf h12
    rw [ShuffleMetadata.load_split, hf]
    show (mkDataSplit (sortInt train) (sortInt test) >>= _) = _
    rw [mkDataSplit, if_neg h12]
    rfl

/-- Witness for C4 (amended): a missing artifact yields `SplitFileMissing`;
a present artifact with duplicate-free indices yields the record with the
sorted split. -/
theorem claim_C4_witness :
    ShuffleMetadata.load_split ⟨"s1", 1, 0, Engine.tf, none⟩
      (fun _ _ => none) = .error (.splitFileMissing splitFileMissingMsg) ∧
    ShuffleMetadata.load_split ⟨"s1", 1, 0, Engine.tf, none⟩
      (fun _ _ => some ([3, 1, 2], [0, 4])) =
      .ok ⟨"s1", 1, 0, Engine.tf, some ⟨[1, 2, 3], [0, 4]⟩⟩ :=
  ⟨(claim_C4_amended ⟨"s1", 1, 0, Engine.tf, none⟩ (fun _ _ => none)).1 rfl,
    (claim_C4_amended ⟨"s1", 1, 0, Engine.tf, none⟩
      (fun _ _ => some ([3, 1, 2], [0, 4]))).2.2.1 [3, 1, 2] [0, 4] rfl
      (by decide) (by decide)⟩

theorem get_shuffle_engine_unfold (m : TrainingDatasetMetadata) (ts : Nat)
    (idx : Int) (sm : ShuffleMetadata) (pfxS : String)
    (fe : Engine → Bool) (pick : List Engine → Engine)
    (hget : m.get ts idx = .ok sm) :
    get_shuffle_engine m ts idx pfxS fe pick =
      if pfxS ≠ "" then
        match find_engines_from_model_folders fe with
        | [] => .error .noEngineFound
        | [e] => .ok e
        | engines =>
            if sm.engine ∈ engines then .ok sm.engine
            else .ok (pick engines)
      else .ok sm.engine := by
  rw [get_shuffle_engine, hget]
  rfl

/-- C6: for every registry containing the requested (trainset slot, shuffle
index) record, `get_shuffle_engine` with an empty modelprefix returns exactly
the registry-stored engine; with a non-empty modelprefix under which exactly
one engine's model folder exists it returns that engine regardless of the
registry-stored engine; and with a non-empty modelprefix under which no
engine's model folder exists it fails with `NoEngineFound`. -/
theorem claim_C6 (m : TrainingDatasetMetadata) (ts : Nat) (idx : Int)
    (sm : ShuffleMetadata) (hget : m.get ts idx = .ok sm) :
    (∀ fe pick, get_shuffle_engine m ts idx "" fe pick = .ok sm.engine) ∧
    (∀ pfxS fe pick e, pfxS ≠ "" →
      find_engines_from_model_folders fe = [e] →
      get_shuffle_engine m ts idx pfxS fe pick = .ok e) ∧
    (∀ pfxS fe pick, pfxS ≠ "" →
      find_engines_from_model_folders fe = [] →
      get_shuffle_engine m ts idx pfxS fe pick =
        .error .noEngineFound) := by
  refine ⟨?_, ?_, ?_⟩
  · intro fe pick
    rw [get_shuffle_engine_unfold m ts idx sm "" fe pick hget,
      if_neg (by decide)]
  · intro pfxS fe pick e hp hfe
    rw [get_shuffle_engine_unfold m ts idx sm pfxS fe pick hget,
      if_pos hp, hfe]
  · intro pfxS fe pick hp hfe
    rw [get_shuffle_engine_unfold m ts idx sm pfxS fe pick hget,
      if_pos hp, hfe]

/-- Witness for C6 at a concrete registry: all three probing regimes. -/
theorem claim_C6_witness :
    (TrainingDatasetMetadata.mk ⟨[1], "T", "D"⟩
        [⟨"a", 1, 0, Engine.tf, none⟩]).get 0 0 =
      .ok ⟨"a", 1, 0, Engine.tf, none⟩ ∧
    get_shuffle_engine (TrainingDatasetMetadata.mk ⟨[1], "T", "D"⟩
        [⟨"a", 1, 0, Engine.tf, none⟩]) 0 0 "" (fun _ => false)
      (fun _ => Engine.tf) = .ok Engine.tf ∧
    get_shuffle_engine (TrainingDatasetMetadata.mk ⟨[1], "T", "D"⟩
        [⟨"a", 1, 0, Engine.tf, none⟩]) 0 0 "pfx"
      (fun e => e == Engine.pytorch) (fun _ => Engine.tf) =
      .ok Engine.pytorch ∧
    get_shuffle_engine (TrainingDatasetMetadata.mk ⟨[1], "T", "D"⟩
        [⟨"a", 1, 0, Engine.tf, none⟩]) 0 0 "pfx" (fun _ => false)
      (fun _ => Engine.tf) = .error .noEngineFound :=
  ⟨by decide,
    (claim_C6 _ 0 0 ⟨"a", 1, 0, Engine.tf, none⟩ (by decide)).1
      (fun _ => false) (fun _ => Engine.tf),
    (claim_C6 _ 0 0 ⟨"a", 1, 0, Engine.tf, none⟩ (by decide)).2.1
      "pfx" (fun e => e == Engine.pytorch) (fun _ => Engine.tf)
      Engine.pytorch (by decide) (by decide),
    (claim_C6 _ 0 0 ⟨"a", 1, 0, Engine.tf, none⟩ (by decide)).2.2
      "pfx" (fun _ => false) (fun _ => Engine.tf) (by decide) (by decide)⟩

/-- C7: when the probe under a non-empty modelprefix yields more than one
engine, the closed two-member enumeration forces the match set to be all
engines, so the registry-stored engine is always among the matches and is
returned: the unspecified `engines.pop()` choice (modelled by the adversarial
`pick`) is never consulted, and two resolutions on identical registry and
filesystem state return the same engine. -/
theorem claim_C7 (m : TrainingDatasetMetadata) (ts : Nat) (idx : Int)
    (sm : ShuffleMetadata) (hget : m.get ts idx = .ok sm) (pfxS : String)
    (fe : Engine → Bool) (hp : pfxS ≠ "")
    (hmulti : 2 ≤ (find_engines_from_model_folders fe).length) :
    (∀ pick, get_shuffle_engine m ts idx pfxS fe pick = .ok sm.engine) ∧
    (∀ pick pick', get_shuffle_engine m ts idx pfxS fe pick =
      get_shuffle_engine m ts idx pfxS fe pick') := by
  have hsub : (find_engines_from_model_folders fe).Sublist allEngines :=
    List.filter_sublist _
  have hlen2 : (find_engines_from_model_folders fe).length = 2 :=
    le_antisymm (by simpa [allEngines] using hsub.length_le) hmulti
  have hall : find_engines_from_model_folders fe = allEngines :=
    hsub.eq_of_length (by rw [hlen2]; rfl)
  have hmem : sm.engine ∈ allEngines := by
    cases sm.engine <;> decide
  have hres : ∀ pick, get_shuffle_engine m ts idx pfxS fe pick =
      .ok sm.engine := by
    intro pick
    rw [get_shuffle_engine_unfold m ts idx sm pfxS fe pick hget,
      if_pos hp, hall]
    show (if sm.engine ∈ allEngines then Except.ok sm.engine
      else Except.ok (pick allEngines)) = Except.ok sm.engine
    rw [if_pos hmem]
  exact ⟨hres, fun pick pick' => (hres pick).trans (hres pick').symm⟩

/-- Witness for C7: both engines' folders exist under the prefix; resolution
ignores the arbitrary choice function and returns the stored engine. -/
theorem claim_C7_witness :
    (TrainingDatasetMetadata.mk ⟨[1], "T", "D"⟩
        [⟨"a", 1, 0, Engine.tf, none⟩]).get 0 0 =
      .ok ⟨"a", 1, 0, Engine.tf, none⟩ ∧
    ("pfx" : String) ≠ "" ∧
    2 ≤ (find_engines_from_model_folders (fun _ => true)).length ∧
    get_shuffle_engine (TrainingDatasetMetadata.mk ⟨[1], "T", "D"⟩
        [⟨"a", 1, 0, Engine.tf, none⟩]) 0 0 "pfx" (fun _ => true)
      (fun _ => Engine.pytorch) = .ok Engine.tf :=
  ⟨by decide, by decide, by decide,
    (claim_C7 _ 0 0 ⟨"a", 1, 0, Engine.tf, none⟩ (by decide) "pfx"
      (fun _ => true) (by decide) (by decide)).1 (fun _ => Engine.pytorch)⟩

theorem mkDataSplit_ok {a b : List Int} {d : DataSplit}
    (h : mkDataSplit a b = .ok d) :
    d = ⟨a, b⟩ ∧ strictlyAscending a ∧ strictlyAscending b := by
  by_cases hc : strictlyAscending a ∧ strictlyAscending b
  · rw [mkDataSplit, if_pos hc] at h
    exact ⟨(Except.ok.inj h).symm, hc⟩
  · rw [mkDataSplit, if_neg hc] at h
    exact absurd h (fun hh => Except.noConfusion hh)

theorem mkDataSplit_ok_of {a b : List Int} (ha : strictlyAscending a)
    (hb : strictlyAscending b) : mkDataSplit a b = .ok ⟨a, b⟩ := by
  rw [mkDataSplit, if_pos ⟨ha, hb⟩]

theorem createRecords_ok_iff (p : String) :
    ∀ (docs : List LegacyDoc) (l : List ShuffleMetadata),
      createRecords p docs = .ok l ↔
      ((∀ d ∈ docs, strictlyAscending (sortInt d.train_idx) ∧
        strictlyAscending (sortInt d.test_idx)) ∧
       l = docs.map (fun d => ShuffleMetadata.mk
         (legacyShuffleName p d.train_frac d.index) d.train_frac d.index
         Engine.tf (some ⟨sortInt d.train_idx, sortInt d.test_idx⟩)))
  | [], l => by
      rw [createRecords]
      constructor
      · intro h
        exact ⟨by simp, (Except.ok.inj h).symm⟩
      · rintro ⟨-, hl⟩
        rw [hl, List.map_nil]
  | d :: rest, l => by
      rw [createRecords]
      constructor
      · intro h
        rcases except_bind_ok h with ⟨sp, hsp, h2⟩
        rcases except_bind_ok h2 with ⟨others, hothers, h3⟩
        rcases mkDataSplit_ok hsp with ⟨hspe, ha, hb⟩
        rcases (createRecords_ok_iff p rest others).mp hothers with ⟨hrest, ho⟩
        refine ⟨?_, ?_⟩
        · intro d' hd'
          rcases List.mem_cons.mp hd' with hd' | hd'
          · rw [hd']
            exact ⟨ha, hb⟩
          · exact hrest d' hd'
        · rw [← Except.ok.inj h3, List.map_cons, ho, hspe]
      · rintro ⟨hall, hl⟩
        have ha := (hall d (List.mem_cons_self d rest)).1
        have hb := (hall d (List.mem_cons_self d rest)).2
        rw [mkDataSplit_ok_of ha hb]
        show (createRecords p rest >>= _) = _
        rw [(createRecords_ok_iff p rest (rest.map _)).mpr
          ⟨fun d' hd' => hall d' (List.mem_cons_of_mem d hd'), rfl⟩]
        show Except.ok _ = _
        rw [hl, List.map_cons]

theorem create_char {cfg : ProjectConfig} {docs : List LegacyDoc}
    {m : TrainingDatasetMetadata}
    (h : TrainingDatasetMetadata.create cfg docs = .ok m) :
    ∃ l, createRecords (cfg.task ++ cfg.date) docs = .ok l ∧
      m = ⟨cfg, sortShuffles l⟩ ∧ shufflesOrdered (sortShuffles l) := by
  rw [TrainingDatasetMetadata.create] at h
  rcases except_bind_ok h with ⟨l, hl, hmk⟩
  rcases mkMetadata_ok hmk with ⟨hm, hord⟩
  exact ⟨l, hl, hm, hord⟩

theorem sorted_perm_eq {l₁ l₂ : List ShuffleMetadata}
    (hperm : List.Perm l₁ l₂) (h₁ : l₁.Pairwise keyLt)
    (h₂ : l₂.Pairwise keyLt) : l₁ = l₂ :=
  List.eq_of_perm_of_sorted hperm h₁ h₂

/-- C8: legacy migration tags every migrated shuffle with the TF engine, and
`create` is insensitive to the order in which the directory scan lists the
legacy per-shuffle files: over the same directory contents (any permutation
of the same legacy documents) two runs yield equal registries. -/
theorem claim_C8 (cfg : ProjectConfig) (docs docs' : List LegacyDoc)
    (hperm : List.Perm docs docs') :
    (∀ m, TrainingDatasetMetadata.create cfg docs = .ok m →
      ∀ s ∈ m.shuffles, s.engine = Engine.tf) ∧
    (∀ m m', TrainingDatasetMetadata.create cfg docs = .ok m →
      TrainingDatasetMetadata.create cfg docs' = .ok m' → m = m') := by
  constructor
  · intro m hm s hs
    rcases create_char hm with ⟨l, hl, hme, -⟩
    rcases (createRecords_ok_iff _ docs l).mp hl with ⟨-, hlm⟩
    have hsl : s ∈ l := by
      rw [hme] at hs
      exact (sortShuffles_perm l).mem_iff.mp hs
    rw [hlm] at hsl
    rcases List.mem_map.mp hsl with ⟨d, -, hd⟩
    rw [← hd]
  · intro m m' hm hm'
    rcases create_char hm with ⟨l, hl, hme, hord⟩
    rcases create_char hm' with ⟨l', hl', hme', hord'⟩
    rcases (createRecords_ok_iff _ docs l).mp hl with ⟨-, hlm⟩
    rcases (createRecords_ok_iff _ docs' l').mp hl' with ⟨-, hlm'⟩
    have hpl : List.Perm l l' := by
      rw [hlm, hlm']
      exact hperm.map _
    have hps : List.Perm (sortShuffles l) (sortShuffles l') :=
      ((sortShuffles_perm l).trans hpl).trans (sortShuffles_perm l').symm
    have heq : sortShuffles l = sortShuffles l' :=
      sorted_perm_eq hps ((ordered_iff_pairwise _).mp hord)
        ((ordered_iff_pairwise _).mp hord')
    rw [hme, hme', heq]

/-- Witness for C8: two scans of the same two legacy files in opposite
orders produce the same registry, and its records are tagged TF. -/
theorem claim_C8_witness :
    List.Perm ([⟨0, [1, 0], [2], 1⟩, ⟨1, [2], [0, 1], 1⟩] : List LegacyDoc)
      [⟨1, [2], [0, 1], 1⟩, ⟨0, [1, 0], [2], 1⟩] ∧
    TrainingDatasetMetadata.create ⟨[1], "T", "D"⟩
      [⟨0, [1, 0], [2], 1⟩, ⟨1, [2], [0, 1], 1⟩] =
      .ok ⟨⟨[1], "T", "D"⟩,
        [⟨legacyShuffleName ("T" ++ "D") 1 0, 1, 0, Engine.tf,
          some ⟨[0, 1], [2]⟩⟩,
         ⟨legacyShuffleName ("T" ++ "D") 1 1, 1, 1, Engine.tf,
          some ⟨[2], [0, 1]⟩⟩]⟩ ∧
    (∀ s ∈ (TrainingDatasetMetadata.mk ⟨[1], "T", "D"⟩
        [⟨legacyShuffleName ("T" ++ "D") 1 0, 1, 0, Engine.tf,
          some ⟨[0, 1], [2]⟩⟩,
         ⟨legacyShuffleName ("T" ++ "D") 1 1, 1, 1, Engine.tf,
          some ⟨[2], [0, 1]⟩⟩]).shuffles, s.engine = Engine.tf) ∧
    (TrainingDatasetMetadata.mk ⟨[1], "T", "D"⟩
        [⟨legacyShuffleName ("T" ++ "D") 1 0, 1, 0, Engine.tf,
          some ⟨[0, 1], [2]⟩⟩,
         ⟨legacyShuffleName ("T" ++ "D") 1 1, 1, 1, Engine.tf,
          some ⟨[2], [0, 1]⟩⟩] : TrainingDatasetMetadata) =
      ⟨⟨[1], "T", "D"⟩,
        [⟨legacyShuffleName ("T" ++ "D") 1 0, 1, 0, Engine.tf,
          some ⟨[0, 1], [2]⟩⟩,
         ⟨legacyShuffleName ("T" ++ "D") 1 1, 1, 1, Engine.tf,
          some ⟨[2], [0, 1]⟩⟩]⟩ :=
  ⟨by decide, by rfl,
    (claim_C8 ⟨[1], "T", "D"⟩
      [⟨0, [1, 0], [2], 1⟩, ⟨1, [2], [0, 1], 1⟩]
      [⟨1, [2], [0, 1], 1⟩, ⟨0, [1, 0], [2], 1⟩] (by decide)).1 _ (by rfl),
    (claim_C8 ⟨[1], "T", "D"⟩
      [⟨0, [1, 0], [2], 1⟩, ⟨1, [2], [0, 1], 1⟩]
      [⟨1, [2], [0, 1], 1⟩, ⟨0, [1, 0], [2], 1⟩] (by decide)).2 _ _
      (by rfl) (by rfl)⟩

theorem splitsFind_mem :
    ∀ {seen : List (DataSplit × Nat)} {t : DataSplit} {v : Nat},
      splitsFind seen t = some v → (t, v) ∈ seen
  | [], _, _, h => absurd h (by rw [splitsFind]; exact fun hh => Option.noConfusion hh)
  | (k, w) :: rest, t, v, h => by
      rw [splitsFind] at h
      by_cases hk : k = t
      · rw [if_pos hk] at h
        rw [← hk, ← Option.some.inj h]
        exact List.mem_cons_self _ _
      · rw [if_neg hk] at h
        exact List.mem_cons_of_mem _ (splitsFind_mem h)

theorem splitsFind_none :
    ∀ {seen : List (DataSplit × Nat)} {t : DataSplit},
      splitsFind seen t = none → ∀ p ∈ seen, p.1 ≠ t
  | [], _, _ => fun p hp => absurd hp (List.not_mem_nil p)
  | (k, w) :: rest, t, h => by
      rw [splitsFind] at h
      by_cases hk : k = t
      · rw [if_pos hk] at h
        exact absurd h (fun hh => Option.noConfusion hh)
      · rw [if_neg hk] at h
        intro p hp
        rcases List.mem_cons.mp hp with hp | hp
        · rw [hp]
          exact hk
        · exact splitsFind_none h p hp

theorem splitsFind_cons_self (seen : List (DataSplit × Nat)) (r : DataSplit)
    (x : Nat) : splitsFind ((r, x) :: seen) r = some x := by
  rw [splitsFind, if_pos rfl]

theorem splitsFind_cons_ne {r t : DataSplit} (h : r ≠ t)
    (seen : List (DataSplit × Nat)) (x : Nat) :
    splitsFind ((r, x) :: seen) t = splitsFind seen t := by
  rw [splitsFind, if_neg h]

theorem internIds_cons_found {r : DataSplit} {rest : List DataSplit}
    {seen : List (DataSplit × Nat)} {w : Nat} (h : splitsFind seen r = some w) :
    internIds (r :: rest) seen = w :: internIds rest seen := by
  rw [internIds, h]

theorem internIds_cons_fresh {r : DataSplit} {rest : List DataSplit}
    {seen : List (DataSplit × Nat)} (h : splitsFind seen r = none) :
    internIds (r :: rest) seen =
      (seen.length + 1) :: internIds rest ((r, seen.length + 1) :: seen) := by
  rw [internIds, h]

theorem inv_extend {seen : List (DataSplit × Nat)} {r : DataSplit}
    (hfst : (seen.map Prod.fst).Nodup) (hsnd : (seen.map Prod.snd).Nodup)
    (hle : ∀ p ∈ seen, p.2 ≤ seen.length) (hr : splitsFind seen r = none) :
    ((((r, seen.length + 1) :: seen).map Prod.fst).Nodup ∧
     (((r, seen.length + 1) :: seen).map Prod.snd).Nodup ∧
     ∀ p ∈ (r, seen.length + 1) :: seen,
       p.2 ≤ ((r, seen.length + 1) :: seen).length) := by
  refine ⟨?_, ?_, ?_⟩
  · rw [List.map_cons, List.nodup_cons]
    refine ⟨?_, hfst⟩
    intro hmem
    rcases List.mem_map.mp hmem with ⟨p, hp, hpe⟩
    exact splitsFind_none hr p hp hpe
  · rw [List.map_cons, List.nodup_cons]
    refine ⟨?_, hsnd⟩
    intro hmem
    rcases List.mem_map.mp hmem with ⟨p, hp, hpe⟩
    have := hle p hp
    rw [hpe] at this
    exact Nat.not_succ_le_self _ this
  · intro p hp
    rcases List.mem_cons.mp hp with hp | hp
    · rw [hp, List.length_cons]
    · rw [List.length_cons]
      exact le_trans (hle p hp) (Nat.le_succ _)

theorem internIds_lookup :
    ∀ (rest : List DataSplit) (seen : List (DataSplit × Nat)) (t : DataSplit)
      (v : Nat),
      (seen.map Prod.fst).Nodup → (seen.map Prod.snd).Nodup →
      (∀ p ∈ seen, p.2 ≤ seen.length) →
      splitsFind seen t = some v →
      ∀ k, k < rest.length →
        ((internIds rest seen).getD k 0 = v ↔ rest.getD k ⟨[], []⟩ = t)
  | [], _, _, _, _, _, _, _, k, hk => absurd hk (by simp)
  | r :: rest, seen, t, v, hfst, hsnd, hle, hfind, k, hk => by
      cases hr : splitsFind seen r with
      | some w =>
          rw [internIds_cons_found hr]
          cases k with
          | zero =>
              rw [List.getD_cons_zero, List.getD_cons_zero]
              constructor
              · intro hwv
                have hmem1 : (r, w) ∈ seen := splitsFind_mem hr
                have hmem2 : (t, v) ∈ seen := splitsFind_mem hfind
                have hpq : (r, w) = (t, v) :=
                  List.inj_on_of_nodup_map hsnd hmem1 hmem2 hwv
                exact congrArg Prod.fst hpq
              · intro hrt
                rw [hrt] at hr
                exact Option.some.inj (hr.symm.trans hfind)
          | succ k' =>
              rw [List.getD_cons_succ, List.getD_cons_succ]
              exact internIds_lookup rest seen t v hfst hsnd hle hfind k'
                (Nat.lt_of_succ_lt_succ hk)
      | none =>
          rw [internIds_cons_fresh hr]
          cases k with
          | zero =>
              rw [List.getD_cons_zero, List.getD_cons_zero]
              have hvle : v ≤ seen.length := hle (t, v) (splitsFind_mem hfind)
              constructor
              · intro hlenv
                exfalso
                rw [← hlenv] at hvle
                exact Nat.not_succ_le_self _ hvle
              · intro hrt
                exfalso
                rw [hrt] at hr
                exact Option.noConfusion (hr.symm.trans hfind)
          | succ k' =>
              rw [List.getD_cons_succ, List.getD_cons_succ]
              have hrt : r ≠ t := by
                intro hh
                rw [hh] at hr
                exact Option.noConfusion (hr.symm.trans hfind)
              rcases inv_extend hfst hsnd hle hr with ⟨hfst', hsnd', hle'⟩
              exact internIds_lookup rest ((r, seen.length + 1) :: seen) t v
                hfst' hsnd' hle'
                ((splitsFind_cons_ne hrt seen _).trans hfind) k'
                (Nat.lt_of_succ_lt_succ hk)

theorem internIds_eq_iff :
    ∀ (splits : List DataSplit) (seen : List (DataSplit × Nat)),
      (seen.map Prod.fst).Nodup → (seen.map Prod.snd).Nodup →
      (∀ p ∈ seen, p.2 ≤ seen.length) →
      ∀ i j, i < splits.length → j < splits.length →
        ((internIds splits seen).getD i 0 =
          (internIds splits seen).getD j 0 ↔
         splits.getD i ⟨[], []⟩ = splits.getD j ⟨[], []⟩)
  | [], _, _, _, _, i, _, hi, _ => absurd hi (by simp)
  | s :: rest, seen, hfst, hsnd, hle, i, j, hi, hj => by
      have hstep : ∃ w seen', internIds (s :: rest) seen =
          w :: internIds rest seen' ∧ splitsFind seen' s = some w ∧
          (seen'.map Prod.fst).Nodup ∧ (seen'.map Prod.snd).Nodup ∧
          (∀ p ∈ seen', p.2 ≤ seen'.length) := by
        cases hs : splitsFind seen s with
        | some w =>
            exact ⟨w, seen, internIds_cons_found hs, hs, hfst, hsnd, hle⟩
        | none =>
            rcases inv_extend hfst hsnd hle hs with ⟨hfst', hsnd', hle'⟩
            exact ⟨seen.length + 1, (s, seen.length + 1) :: seen,
              internIds_cons_fresh hs, splitsFind_cons_self seen s _,
              hfst', hsnd', hle'⟩
      rcases hstep with ⟨w, seen', hids, hfind', hfst', hsnd', hle'⟩
      rw [hids]
      cases i with
      | zero =>
          cases j with
          | zero => simp
          | succ j' =>
              rw [List.getD_cons_zero, List.getD_cons_succ,
                List.getD_cons_zero, List.getD_cons_succ]
              have hM := internIds_lookup rest seen' s w hfst' hsnd' hle'
                hfind' j' (Nat.lt_of_succ_lt_succ hj)
              constructor
              · intro h
                exact (hM.mp h.symm).symm
              · intro h
                exact (hM.mpr h.symm).symm
      | succ i' =>
          cases j with
          | zero =>
              rw [List.getD_cons_succ, List.getD_cons_zero,
                List.getD_cons_succ, List.getD_cons_zero]
              exact internIds_lookup rest seen' s w hfst' hsnd' hle'
                hfind' i' (Nat.lt_of_succ_lt_succ hi)
          | succ j' =>
              rw [List.getD_cons_succ, List.getD_cons_succ,
                List.getD_cons_succ, List.getD_cons_succ]
              exact internIds_eq_iff rest seen' hfst' hsnd' hle' i' j'
                (Nat.lt_of_succ_lt_succ hi) (Nat.lt_of_succ_lt_succ hj)

theorem dictInsert_append {doc : SavedDoc} {k : String} {v : SavedShuffle}
    (h : ∀ p ∈ doc, p.1 ≠ k) : dictInsert doc k v = doc ++ [(k, v)] := by
  rw [dictInsert, if_neg]
  intro hany
  rcases List.any_eq_true.mp hany with ⟨p, hp, hpk⟩
  exact h p hp (by simpa using hpk)

theorem saveLoop_cons_found {files : SplitFiles} {n : String} {f : ℚ}
    {i : Int} {e : Engine} {sp : DataSplit} {rest : List ShuffleMetadata}
    {ds : List (DataSplit × Nat)} {doc : SavedDoc} {idx : Nat}
    (h : splitsFind ds sp = some idx) :
    saveLoop files (⟨n, f, i, e, some sp⟩ :: rest) ds doc =
      saveLoop files rest ds
        (dictInsert doc n ⟨f, i, idx, engineAlias e⟩) := by
  have e1 : saveLoop files (⟨n, f, i, e, some sp⟩ :: rest) ds doc =
      (match splitsFind ds sp with
       | some idx => saveLoop files rest ds
           (dictInsert doc n ⟨f, i, idx, engineAlias e⟩)
       | none => saveLoop files rest ((sp, ds.length + 1) :: ds)
           (dictInsert doc n ⟨f, i, ds.length + 1, engineAlias e⟩)) := rfl
  rw [e1, h]

theorem saveLoop_cons_fresh {files : SplitFiles} {n : String} {f : ℚ}
    {i : Int} {e : Engine} {sp : DataSplit} {rest : List ShuffleMetadata}
    {ds : List (DataSplit × Nat)} {doc : SavedDoc}
    (h : splitsFind ds sp = none) :
    saveLoop files (⟨n, f, i, e, some sp⟩ :: rest) ds doc =
      saveLoop files rest ((sp, ds.length + 1) :: ds)
        (dictInsert doc n ⟨f, i, ds.length + 1, engineAlias e⟩) := by
  have e1 : saveLoop files (⟨n, f, i, e, some sp⟩ :: rest) ds doc =
      (match splitsFind ds sp with
       | some idx => saveLoop files rest ds
           (dictInsert doc n ⟨f, i, idx, engineAlias e⟩)
       | none => saveLoop files rest ((sp, ds.length + 1) :: ds)
           (dictInsert doc n ⟨f, i, ds.length + 1, engineAlias e⟩)) := rfl
  rw [e1, h]

theorem saveLoop_char :
    ∀ (shuffles : List ShuffleMetadata) (ds : List (DataSplit × Nat))
      (doc : SavedDoc) (files : SplitFiles),
      (∀ s ∈ shuffles, s.split ≠ none) →
      (shuffles.map ShuffleMetadata.name).Nodup →
      (∀ s ∈ shuffles, ∀ p ∈ doc, p.1 ≠ s.name) →
      saveLoop files shuffles ds doc =
        .ok (doc ++ List.zipWith mkEntry shuffles
          (internIds (splitsOf shuffles) ds))
  | [], ds, doc, files, _, _, _ => by
      rw [saveLoop]
      rw [show splitsOf [] = [] from rfl, show internIds [] ds = [] from rfl,
        List.zipWith_nil_right, List.append_nil]
  | s :: rest, ds, doc, files, hsp, hnames, hdoc => by
      obtain ⟨n, f, i, e, osplit⟩ := s
      cases osplit with
      | none =>
          exact absurd rfl
            (hsp ⟨n, f, i, e, none⟩ (List.mem_cons_self _ _))
      | some sp =>
          have hsplits : splitsOf (⟨n, f, i, e, some sp⟩ :: rest) =
            sp :: splitsOf rest := rfl
          have hnames' : (rest.map ShuffleMetadata.name).Nodup :=
            (List.nodup_cons.mp (by simpa using hnames)).2
          have hhead : ∀ s' ∈ rest, n ≠ s'.name := by
            intro s' hs' hne
            have : ShuffleMetadata.name ⟨n, f, i, e, some sp⟩ ∈
                rest.map ShuffleMetadata.name :=
              List.mem_map.mpr ⟨s', hs', hne.symm⟩
            exact (List.nodup_cons.mp (by simpa using hnames)).1 this
          have hsp' : ∀ s' ∈ rest, s'.split ≠ none :=
            fun s' hs' => hsp s' (List.mem_cons_of_mem _ hs')
          have hdocn : ∀ p ∈ doc, p.1 ≠ n :=
            hdoc ⟨n, f, i, e, some sp⟩ (List.mem_cons_self _ _)
          cases hfind : splitsFind ds sp with
          | some idx =>
              rw [saveLoop_cons_found hfind, dictInsert_append hdocn]
              have hdoc' : ∀ s' ∈ rest,
                  ∀ p ∈ doc ++ [(n, (⟨f, i, idx, engineAlias e⟩ : SavedShuffle))],
                    p.1 ≠ s'.name := by
                intro s' hs' p hp
                rcases List.mem_append.mp hp with hp | hp
                · exact hdoc s' (List.mem_cons_of_mem _ hs') p hp
                · rw [List.mem_singleton.mp hp]
                  exact hhead s' hs'
              rw [saveLoop_char rest ds _ files hsp' hnames' hdoc']
              rw [hsplits, internIds_cons_found hfind,
                List.zipWith_cons_cons, ← List.append_cons]
              rfl
          | none =>
              rw [saveLoop_cons_fresh hfind, dictInsert_append hdocn]
              have hdoc' : ∀ s' ∈ rest,
                  ∀ p ∈ doc ++
                    [(n, (⟨f, i, ds.length + 1, engineAlias e⟩ : SavedShuffle))],
                    p.1 ≠ s'.name := by
                intro s' hs' p hp
                rcases List.mem_append.mp hp with hp | hp
                · exact hdoc s' (List.mem_cons_of_mem _ hs') p hp
                · rw [List.mem_singleton.mp hp]
                  exact hhead s' hs'
              rw [saveLoop_char rest _ _ files hsp' hnames' hdoc']
              rw [hsplits, internIds_cons_fresh hfind,
                List.zipWith_cons_cons, ← List.append_cons]
              rfl

theorem save_char {m : TrainingDatasetMetadata} {files : SplitFiles}
    (hsp : ∀ s ∈ m.shuffles, s.split ≠ none)
    (hnames : (m.shuffles.map ShuffleMetadata.name).Nodup) :
    m.save files = .ok (List.zipWith mkEntry m.shuffles
      (internIds (splitsOf m.shuffles) [])) := by
  rw [TrainingDatasetMetadata.save,
    saveLoop_char m.shuffles [] [] files hsp hnames
      (fun s _ p hp => absurd hp (List.not_mem_nil p)),
    List.nil_append]

theorem internIds_length :
    ∀ (splits : List DataSplit) (seen : List (DataSplit × Nat)),
      (internIds splits seen).length = splits.length
  | [], _ => rfl
  | s :: rest, seen => by
      cases hs : splitsFind seen s with
      | some w =>
          rw [internIds_cons_found hs, List.length_cons, List.length_cons,
            internIds_length rest seen]
      | none =>
          rw [internIds_cons_fresh hs, List.length_cons, List.length_cons,
            internIds_length rest _]

theorem zipWith_getD {α β γ : Type} (f : α → β → γ) :
    ∀ (l₁ : List α) (l₂ : List β) (i : Nat), i < l₁.length →
      i < l₂.length → ∀ (d₁ : α) (d₂ : β) (dg : γ),
      (List.zipWith f l₁ l₂).getD i dg = f (l₁.getD i d₁) (l₂.getD i d₂)
  | [], _, i, hi, _, _, _, _ => absurd hi (by simp)
  | _ :: _, [], i, _, hi, _, _, _ => absurd hi (by simp)
  | a :: as, b :: bs, 0, _, _, d₁, d₂, dg => by
      rw [List.zipWith_cons_cons, List.getD_cons_zero, List.getD_cons_zero,
        List.getD_cons_zero]
  | a :: as, b :: bs, i + 1, hi, hj, d₁, d₂, dg => by
      rw [List.zipWith_cons_cons, List.getD_cons_succ, List.getD_cons_succ,
        List.getD_cons_succ]
      exact zipWith_getD f as bs i (Nat.lt_of_succ_lt_succ hi)
        (Nat.lt_of_succ_lt_succ hj) d₁ d₂ dg

theorem splitsOf_getD :
    ∀ (l : List ShuffleMetadata) (i : Nat), i < l.length →
      (splitsOf l).getD i ⟨[], []⟩ =
        ((l.getD i ⟨"", 0, 0, Engine.tf, none⟩).split.getD ⟨[], []⟩)
  | [], i, hi => absurd hi (by simp)
  | s :: rest, 0, _ => by
      rw [show splitsOf (s :: rest) =
        s.split.getD ⟨[], []⟩ :: splitsOf rest from rfl,
        List.getD_cons_zero, List.getD_cons_zero]
  | s :: rest, i + 1, hi => by
      rw [show splitsOf (s :: rest) =
        s.split.getD ⟨[], []⟩ :: splitsOf rest from rfl,
        List.getD_cons_succ, List.getD_cons_succ]
      exact splitsOf_getD rest i (Nat.lt_of_succ_lt_succ hi)

theorem getD_mem_of_lt :
    ∀ (l : List α) (i : Nat) (d : α), i < l.length → l.getD i d ∈ l
  | [], i, _, hi => absurd hi (by simp)
  | a :: rest, 0, d, _ => by
      rw [List.getD_cons_zero]
      exact List.mem_cons_self _ _
  | a :: rest, i + 1, d, hi => by
      rw [List.getD_cons_succ]
      exact List.mem_cons_of_mem _
        (getD_mem_of_lt rest i d (Nat.lt_of_succ_lt_succ hi))

theorem option_getD_inj {o₁ o₂ : Option DataSplit} (h₁ : o₁ ≠ none)
    (h₂ : o₂ ≠ none) (d : DataSplit) :
    o₁.getD d = o₂.getD d ↔ o₁ = o₂ := by
  cases o₁ with
  | none => exact absurd rfl h₁
  | some a =>
      cases o₂ with
      | none => exact absurd rfl h₂
      | some b =>
          rw [Option.getD_some, Option.getD_some]
          exact ⟨fun h => by rw [h], fun h => Option.some.inj h⟩

/-- C5: iterating records in registry order, `save` assigns each distinct
`DataSplit` a 1-based id in first-encounter order; two records receive the
same interned id if and only if their splits are structurally equal.  Stated
for registries whose records all carry loaded splits and have distinct names
(the spec's data model requires names to be unique within a registry; with a
duplicated name the YAML mapping would collapse the two entries). -/
theorem claim_C5 (m : TrainingDatasetMetadata) (files : SplitFiles)
    (hsp : ∀ s ∈ m.shuffles, s.split ≠ none)
    (hnames : (m.shuffles.map ShuffleMetadata.name).Nodup) :
    ∃ doc, m.save files = .ok doc ∧
      doc = List.zipWith mkEntry m.shuffles
        (internIds (splitsOf m.shuffles) []) ∧
      ∀ i j, i < m.shuffles.length → j < m.shuffles.length →
        ((doc.getD i ("", ⟨0, 0, 0, ""⟩)).2.split =
          (doc.getD j ("", ⟨0, 0, 0, ""⟩)).2.split ↔
         (m.shuffles.getD i ⟨"", 0, 0, Engine.tf, none⟩).split =
          (m.shuffles.getD j ⟨"", 0, 0, Engine.tf, none⟩).split) := by
  refine ⟨_, save_char hsp hnames, rfl, ?_⟩
  intro i j hi hj
  have hlsplit : (splitsOf m.shuffles).length = m.shuffles.length :=
    List.length_map _ _
  have hi2 : i < (splitsOf m.shuffles).length := by
    rw [hlsplit]
    exact hi
  have hj2 : j < (splitsOf m.shuffles).length := by
    rw [hlsplit]
    exact hj
  have hi3 : i < (internIds (splitsOf m.shuffles) []).length := by
    rw [internIds_length]
    exact hi2
  have hj3 : j < (internIds (splitsOf m.shuffles) []).length := by
    rw [internIds_length]
    exact hj2
  rw [zipWith_getD mkEntry m.shuffles (internIds (splitsOf m.shuffles) [])
      i hi hi3 ⟨"", 0, 0, Engine.tf, none⟩ 0 ("", ⟨0, 0, 0, ""⟩),
    zipWith_getD mkEntry m.shuffles (internIds (splitsOf m.shuffles) [])
      j hj hj3 ⟨"", 0, 0, Engine.tf, none⟩ 0 ("", ⟨0, 0, 0, ""⟩)]
  show (internIds (splitsOf m.shuffles) []).getD i 0 =
      (internIds (splitsOf m.shuffles) []).getD j 0 ↔ _
  rw [internIds_eq_iff (splitsOf m.shuffles) [] (by simp) (by simp)
      (fun p hp => absurd hp (List.not_mem_nil p)) i j hi2 hj2]
  rw [splitsOf_getD m.shuffles i hi, splitsOf_getD m.shuffles j hj]
  exact option_getD_inj (hsp _ (getD_mem_of_lt _ i _ hi))
    (hsp _ (getD_mem_of_lt _ j _ hj)) _

/-- Witness for C5: three records, two sharing one split: the shared split
receives the same id 1 on both records, the distinct split receives id 2. -/
theorem claim_C5_witness :
    (∀ s ∈ (TrainingDatasetMetadata.mk ⟨[1, 2], "T", "D"⟩
      [⟨"a", 1, 0, Engine.tf, some ⟨[0, 1], [2]⟩⟩,
       ⟨"b", 1, 1, Engine.pytorch, some ⟨[0, 1], [2]⟩⟩,
       ⟨"c", 2, 0, Engine.pytorch, some ⟨[0], [1, 2]⟩⟩]).shuffles,
      s.split ≠ none) ∧
    ((TrainingDatasetMetadata.mk ⟨[1, 2], "T", "D"⟩
      [⟨"a", 1, 0, Engine.tf, some ⟨[0, 1], [2]⟩⟩,
       ⟨"b", 1, 1, Engine.pytorch, some ⟨[0, 1], [2]⟩⟩,
       ⟨"c", 2, 0, Engine.pytorch, some ⟨[0], [1, 2]⟩⟩]).shuffles.map
      ShuffleMetadata.name).Nodup ∧
    (TrainingDatasetMetadata.mk ⟨[1, 2], "T", "D"⟩
      [⟨"a", 1, 0, Engine.tf, some ⟨[0, 1], [2]⟩⟩,
       ⟨"b", 1, 1, Engine.pytorch, some ⟨[0, 1], [2]⟩⟩,
       ⟨"c", 2, 0, Engine.pytorch, some ⟨[0], [1, 2]⟩⟩]).save
      (fun _ _ => none) =
      .ok [("a", ⟨1, 0, 1, "tensorflow"⟩), ("b", ⟨1, 1, 1, "pytorch"⟩),
        ("c", ⟨2, 0, 2, "pytorch"⟩)] := by
  obtain ⟨doc, h1, h2, -⟩ := claim_C5
    (TrainingDatasetMetadata.mk ⟨[1, 2], "T", "D"⟩
      [⟨"a", 1, 0, Engine.tf, some ⟨[0, 1], [2]⟩⟩,
       ⟨"b", 1, 1, Engine.pytorch, some ⟨[0, 1], [2]⟩⟩,
       ⟨"c", 2, 0, Engine.pytorch, some ⟨[0], [1, 2]⟩⟩])
    (fun _ _ => none) (by decide) (by decide)
  refine ⟨by decide, by decide, ?_⟩
  rw [h1, h2]
  decide

theorem fromAlias_alias (e : Engine) :
    Engine.fromAlias (engineAlias e) = some e := by
  cases e <;> rfl

theorem loadLoop_cons_ok {files : SplitFiles} {n : String}
    {entry : SavedShuffle} {rest : SavedDoc} {eng : Engine}
    (h : Engine.fromAlias entry.engine = some eng) :
    loadLoop files false ((n, entry) :: rest) =
      (loadLoop files false rest) >>= fun others =>
        .ok (⟨n, entry.train_fraction, entry.index, eng, none⟩ :: others) := by
  rw [loadLoop, h]
  rfl

theorem loadLoop_zip :
    ∀ (shuffles : List ShuffleMetadata) (ids : List Nat)
      (files : SplitFiles), ids.length = shuffles.length →
      loadLoop files false (List.zipWith mkEntry shuffles ids) =
        .ok (shuffles.map stripSplit)
  | [], [], files, _ => rfl
  | [], _ :: _, _, hlen => absurd hlen (by simp)
  | _ :: _, [], _, hlen => absurd hlen (by simp)
  | s :: rest, idx :: rest', files, hlen => by
      rw [List.zipWith_cons_cons]
      rw [show mkEntry s idx =
        (s.name, (⟨s.train_fraction, s.index, idx, engineAlias s.engine⟩ :
          SavedShuffle)) from rfl]
      rw [loadLoop_cons_ok (fromAlias_alias s.engine)]
      rw [loadLoop_zip rest rest' files (Nat.succ.inj hlen)]
      rfl

theorem strip_pairwise_keyLt {l : List ShuffleMetadata}
    (h : l.Pairwise keyLt) : (l.map stripSplit).Pairwise keyLt :=
  List.pairwise_map.mpr (h.imp (fun hab => hab))

theorem keyLe_of_keyLt {s t : ShuffleMetadata} (h : keyLt s t) : keyLe s t := by
  rcases h with h | ⟨hf, hi⟩
  · exact Or.inl h
  · exact Or.inr ⟨hf, le_of_lt hi⟩

theorem sortShuffles_of_sorted {l : List ShuffleMetadata}
    (h : l.Pairwise keyLt) : sortShuffles l = l :=
  List.Sorted.insertionSort_eq (h.imp (fun hab => keyLe_of_keyLt hab))

/-- C9: for every valid registry and record, `add` followed by `save`
followed by `load` reproduces an equivalent registry: the loaded registry is
exactly the added-to registry with every record's split dropped (same names,
train fractions, indices, and engines in the same sorted order), and the
saved document's interned split ids are the deterministic first-encounter
interning of the records' split contents. -/
theorem claim_C9 (m : TrainingDatasetMetadata) (r : ShuffleMetadata)
    (ov : Bool) (m₂ : TrainingDatasetMetadata) (files : SplitFiles)
    (cfg₂ : ProjectConfig) (hadd : m.add r ov = .ok m₂)
    (hsp : ∀ s ∈ m₂.shuffles, s.split ≠ none)
    (hnames : (m₂.shuffles.map ShuffleMetadata.name).Nodup) :
    ∃ doc, m₂.save files = .ok doc ∧
      doc = List.zipWith mkEntry m₂.shuffles
        (internIds (splitsOf m₂.shuffles) []) ∧
      TrainingDatasetMetadata.load cfg₂ doc false files =
        .ok ⟨cfg₂, m₂.shuffles.map stripSplit⟩ := by
  have hvalid₂ : shufflesOrdered m₂.shuffles := (add_ok_char hadd).2.2
  have hpw : m₂.shuffles.Pairwise keyLt :=
    (ordered_iff_pairwise _).mp hvalid₂
  have hlen : (internIds (splitsOf m₂.shuffles) []).length =
      m₂.shuffles.length := by
    rw [internIds_length]
    exact List.length_map _ _
  refine ⟨_, save_char hsp hnames, rfl, ?_⟩
  rw [TrainingDatasetMetadata.load,
    loadLoop_zip m₂.shuffles (internIds (splitsOf m₂.shuffles) []) files hlen]
  show mkMetadata cfg₂ (sortShuffles (m₂.shuffles.map stripSplit)) = _
  rw [sortShuffles_of_sorted (strip_pairwise_keyLt hpw),
    mkMetadata_ok_of_valid ((ordered_iff_pairwise _).mpr
      (strip_pairwise_keyLt hpw))]

/-- Witness for C9: a concrete add-save-load round trip. -/
theorem claim_C9_witness :
    (TrainingDatasetMetadata.mk ⟨[1], "T", "D"⟩
        [⟨"a", 1, 0, Engine.tf, some ⟨[0, 1], [2]⟩⟩]).add
      ⟨"b", 1, 1, Engine.pytorch, some ⟨[2], [0, 1]⟩⟩ false =
      .ok (TrainingDatasetMetadata.mk ⟨[1], "T", "D"⟩
        [⟨"a", 1, 0, Engine.tf, some ⟨[0, 1], [2]⟩⟩,
         ⟨"b", 1, 1, Engine.pytorch, some ⟨[2], [0, 1]⟩⟩]) ∧
    (TrainingDatasetMetadata.mk ⟨[1], "T", "D"⟩
        [⟨"a", 1, 0, Engine.tf, some ⟨[0, 1], [2]⟩⟩,
         ⟨"b", 1, 1, Engine.pytorch, some ⟨[2], [0, 1]⟩⟩]).save
      (fun _ _ => none) =
      .ok [("a", ⟨1, 0, 1, "tensorflow"⟩), ("b", ⟨1, 1, 2, "pytorch"⟩)] ∧
    TrainingDatasetMetadata.load ⟨[1], "T", "D"⟩
      [("a", ⟨1, 0, 1, "tensorflow"⟩), ("b", ⟨1, 1, 2, "pytorch"⟩)] false
      (fun _ _ => none) =
      .ok (TrainingDatasetMetadata.mk ⟨[1], "T", "D"⟩
        [⟨"a", 1, 0, Engine.tf, none⟩,
         ⟨"b", 1, 1, Engine.pytorch, none⟩]) := by
  obtain ⟨doc, h1, h2, h3⟩ := claim_C9
    (TrainingDatasetMetadata.mk ⟨[1], "T", "D"⟩
      [⟨"a", 1, 0, Engine.tf, some ⟨[0, 1], [2]⟩⟩])
    ⟨"b", 1, 1, Engine.pytorch, some ⟨[2], [0, 1]⟩⟩ false
    (TrainingDatasetMetadata.mk ⟨[1], "T", "D"⟩
      [⟨"a", 1, 0, Engine.tf, some ⟨[0, 1], [2]⟩⟩,
       ⟨"b", 1, 1, Engine.pytorch, some ⟨[2], [0, 1]⟩⟩])
    (fun _ _ => none) ⟨[1], "T", "D"⟩ (by decide) (by decide) (by decide)
  have hdoc : doc = [("a", ⟨1, 0, 1, "tensorflow"⟩),
      ("b", ⟨1, 1, 2, "pytorch"⟩)] := by
    rw [h2]
    decide
  refine ⟨by decide, ?_, ?_⟩
  · rw [h1, hdoc]
  · rw [← hdoc]
    exact h3.trans (by decide)
